import Mathlib

/-!
Verification of the MigrationTool portal against its specification.

The definitions below are a shallow embedding of the TypeScript sources:
`portal/src/lib/api.ts` (the api client and the InventoryTable component),
the job page (`JobPage`), and the login page (`LoginPage`).  The assessment
and migration orchestration engine itself (plan compiler, executor) is not
part of the visible sources, so those parts are modelled from the
specification text and marked as such in their doc comments.
-/

namespace MigrationTool

/-- Substring test on character lists: `charsInfix pat s` is `true` when `pat`
occurs contiguously inside `s`.  Models JavaScript `String.prototype.includes`. -/
def charsInfix (pat : List Char) : List Char → Bool
  | [] => pat.isEmpty
  | c :: rest => pat.isPrefixOf (c :: rest) || charsInfix pat rest

/-- `strIncludes s pat` models `s.includes(pat)` in JavaScript. -/
def strIncludes (s pat : String) : Bool :=
  charsInfix pat.data s.data

/-- Models JavaScript `String.prototype.toLowerCase` (character-wise
lowercasing). -/
def jsToLower (s : String) : String :=
  String.mk (s.data.map Char.toLower)

/-- The blocker map: resource id → list of human-readable reasons.  Models the
TypeScript `Record<string, string[]>` of `AssessmentJob.blockers`. -/
abbrev BlockerMap := List (String × List String)

/-- `blockers[res.id] || []` in `InventoryTable`: the entry when present,
otherwise the empty list (an empty array is truthy in JavaScript, so a present
empty entry stays the empty list either way). -/
def blockersListOf (blockers : BlockerMap) (rid : String) : List String :=
  (blockers.lookup rid).getD []

/-- `isBlocked` in `InventoryTable`: `blockersList.length > 0`. -/
def isBlocked (blockers : BlockerMap) (rid : String) : Bool :=
  (blockersListOf blockers rid).length > 0

/-- `combinedIssues` in `InventoryTable`: `blockersList.join(" ").toLowerCase()`. -/
def combinedIssues (blockers : BlockerMap) (rid : String) : String :=
  jsToLower (String.intercalate " " (blockersListOf blockers rid))

/-- The phrase `InventoryTable` searches for to recognise a coverage-unknown
classification outcome. -/
def coveragePhrase : String := "no specific official documentation"

/-- `isUnknown` in `InventoryTable`:
`combinedIssues.includes("no specific official documentation")`. -/
def isUnknown (blockers : BlockerMap) (rid : String) : Bool :=
  strIncludes (combinedIssues blockers rid) coveragePhrase

/-- The three possible renderings of the "Can be moved" cell in
`InventoryTable.renderStatus`: the green "Yes" badge, the red "No" badge, or
the grey dash. -/
inductive MoveCell where
  | yes
  | no
  | dash
deriving DecidableEq, Repr

/-- `renderStatus` in `InventoryTable`: blocked and coverage-unknown rows get a
dash, other blocked rows get "No", unblocked rows get "Yes". -/
def renderStatus (blockers : BlockerMap) (rid : String) : MoveCell :=
  if isBlocked blockers rid then
    if isUnknown blockers rid then MoveCell.dash else MoveCell.no
  else MoveCell.yes

/-- The fields of `InventorySnapshot` that the job page reads: the
`total_resources` counter and the resource ids of the `resources` array. -/
structure SnapshotModel where
  total_resources : Nat
  resources : List String
deriving DecidableEq, Repr

/-- The fields of `AssessmentJob` that the job page's summary cards read. -/
structure JobModel where
  inventory_snapshot : Option SnapshotModel
  blockers : Option BlockerMap
deriving DecidableEq, Repr

/-- `totalResources` in `JobPage`: `job.inventory_snapshot?.total_resources || 0`. -/
def totalResources (j : JobModel) : Nat :=
  (j.inventory_snapshot.map (·.total_resources)).getD 0

/-- `blockersCount` in `JobPage`:
`job.blockers ? Object.keys(job.blockers).length : 0` — the number of keys of
the blocker map, empty-valued keys included. -/
def blockersCount (j : JobModel) : Nat :=
  match j.blockers with
  | some b => b.length
  | none => 0

/-- `readyCount` in `JobPage`: `totalResources - blockersCount` (a JavaScript
number, so the subtraction can go below zero; modelled in `Int`). -/
def readyCount (j : JobModel) : Int :=
  (totalResources j : Int) - (blockersCount j : Int)

/-- The count the specification's blocker-map semantics prescribes for "Ready
to Move": the number of snapshot resources whose blocker-map entry is absent
or empty. -/
def movableCount (j : JobModel) : Nat :=
  match j.inventory_snapshot with
  | none => 0
  | some s => (s.resources.filter (fun rid => !isBlocked (j.blockers.getD []) rid)).length

/-- Whether one blocker-map entry's reasons mark a coverage-unknown outcome,
exactly as `InventoryTable` detects it: join with spaces, lowercase, search
for the coverage phrase. -/
def entryIsUnknown (reasons : List String) : Bool :=
  strIncludes (jsToLower (String.intercalate " " reasons)) coveragePhrase

/-- Number of blocker-map keys whose reasons mark a coverage-unknown outcome. -/
def coverageUnknownCount (b : BlockerMap) : Nat :=
  b.countP (fun p => entryIsUnknown p.2)

/-- Number of blocker-map keys whose reasons mark a genuine blocker (not a
coverage-unknown outcome). -/
def genuineBlockerCount (b : BlockerMap) : Nat :=
  b.countP (fun p => !entryIsUnknown p.2)

/-- A one-resource job whose blocker map carries a key mapped to an empty
reasons list. -/
def emptyEntryJob : JobModel :=
  { inventory_snapshot := some { total_resources := 1, resources := ["r1"] },
    blockers := some [("r1", [])] }

/-- A one-resource job whose single blocker entry is a coverage-unknown
marker rather than a genuine blocker. -/
def coverageUnknownJob : JobModel :=
  { inventory_snapshot := some { total_resources := 1, resources := ["r1"] },
    blockers := some [("r1", ["No specific official documentation found for this resource type"])] }

theorem lookup_eq_some_mem {b : BlockerMap} {rid : String} {v : List String}
    (h : b.lookup rid = some v) : (rid, v) ∈ b := by
  induction b with
  | nil => simp [List.lookup] at h
  | cons p rest ih =>
    rw [List.lookup] at h
    by_cases hp : rid == p.1
    · simp [hp] at h
      rw [show p = (p.1, p.2) from rfl]
      simp_all [beq_iff_eq]
    · simp [Bool.of_not_eq_true hp] at h
      exact List.mem_cons_of_mem _ (ih h)

theorem mem_keys_lookup_isSome {b : BlockerMap} {rid : String}
    (h : rid ∈ b.map Prod.fst) : ∃ v, b.lookup rid = some v := by
  induction b with
  | nil => simp at h
  | cons p rest ih =>
    rw [List.map_cons, List.mem_cons] at h
    rw [List.lookup]
    by_cases hp : rid == p.1
    · exact ⟨p.2, by simp [hp]⟩
    · rcases h with h | h
      · exact absurd (beq_iff_eq.mpr h) hp
      · simpa [hp] using ih h

theorem isBlocked_iff {b : BlockerMap} {rid : String}
    (hcov : ∀ p ∈ b, p.2 ≠ []) :
    isBlocked b rid = true ↔ rid ∈ b.map Prod.fst := by
  constructor
  · intro h
    unfold isBlocked blockersListOf at h
    cases hl : b.lookup rid with
    | none => simp [hl] at h
    | some v =>
      exact List.mem_map.mpr ⟨(rid, v), lookup_eq_some_mem hl, rfl⟩
  · intro h
    obtain ⟨v, hv⟩ := mem_keys_lookup_isSome h
    have hne := hcov _ (lookup_eq_some_mem hv)
    unfold isBlocked blockersListOf
    rw [hv]
    simpa [List.length_pos] using hne

theorem countP_mem_keys {resources keys : List String}
    (hnr : resources.Nodup) (hnk : keys.Nodup)
    (hsub : ∀ k ∈ keys, k ∈ resources) :
    resources.countP (fun r => decide (r ∈ keys)) = keys.length := by
  rw [List.countP_eq_length_filter]
  have hperm : (resources.filter (fun r => decide (r ∈ keys))).Perm keys := by
    rw [List.perm_ext_iff_of_nodup (hnr.filter _) hnk]
    intro a
    simp only [List.mem_filter, decide_eq_true_eq]
    exact ⟨fun h => h.2, fun h => ⟨hsub a h, h⟩⟩
  exact hperm.length_eq

theorem renderStatus_yes_iff (b : BlockerMap) (rid : String) :
    renderStatus b rid = MoveCell.yes ↔
      (b.lookup rid = none ∨ b.lookup rid = some []) := by
  unfold renderStatus isBlocked blockersListOf
  cases hl : b.lookup rid with
  | none => simp
  | some v =>
    cases v with
    | nil => simp
    | cons h t =>
      simp only [Option.getD_some, List.length_cons]
      rw [if_pos (by simp)]
      constructor
      · intro hy
        split at hy <;> simp at hy
      · intro hy
        rcases hy with hy | hy <;> simp at hy

/-- C1: the claim fails on the job page's summary count.  On a job with one
resource whose blocker-map entry is present but empty, the row renders "Yes"
(movable) and the specification's movable count is 1, yet the rendered
"Ready to Move" count is `1 - 1 = 0`, because `JobPage` subtracts the number
of blocker-map keys, empty-valued keys included. -/
theorem c1_counterexample :
    renderStatus [("r1", ([] : List String))] "r1" = MoveCell.yes ∧
    movableCount emptyEntryJob = 1 ∧
    readyCount emptyEntryJob = 0 ∧
    readyCount emptyEntryJob ≠ (movableCount emptyEntryJob : Int) := by
  decide

/-- C1 (amended): `InventoryTable` renders "Yes" exactly when the blocker-map
entry is absent or empty; the job page's "Ready to Move" count equals
`total_resources` minus the number of blocker-map keys (so a key mapped to an
empty list is subtracted even though its row renders "Yes").  In particular,
on a well-formed job — `total_resources` equal to the number of listed
resources, resource ids distinct, and every blocker-map key naming a distinct
snapshot resource with a non-empty reasons list — the rendered count does
equal the number of resources whose entry is absent or empty. -/
theorem c1_ready_to_move :
    (∀ (b : BlockerMap) (rid : String),
        renderStatus b rid = MoveCell.yes ↔
          (b.lookup rid = none ∨ b.lookup rid = some [])) ∧
    (∀ (j : JobModel) (s : SnapshotModel) (b : BlockerMap),
        j.inventory_snapshot = some s → j.blockers = some b →
        readyCount j = (s.total_resources : Int) - (b.length : Int)) ∧
    (∀ (j : JobModel) (s : SnapshotModel) (b : BlockerMap),
        j.inventory_snapshot = some s → j.blockers = some b →
        s.total_resources = s.resources.length → s.resources.Nodup →
        (b.map Prod.fst).Nodup →
        (∀ p ∈ b, p.1 ∈ s.resources ∧ p.2 ≠ []) →
        readyCount j = (movableCount j : Int)) := by
  refine ⟨renderStatus_yes_iff, ?_, ?_⟩
  · intro j s b hsnap hb
    simp [readyCount, totalResources, blockersCount, hsnap, hb]
  · intro j s b hsnap hb htot hnr hnk hcov
    have hkeys : ∀ k ∈ b.map Prod.fst, k ∈ s.resources := by
      intro k hk
      obtain ⟨p, hp, rfl⟩ := List.mem_map.mp hk
      exact (hcov p hp).1
    have hcount : s.resources.countP (isBlocked b) = b.length := by
      rw [List.countP_congr (fun x _ => ?_), countP_mem_keys hnr hnk hkeys]
      · exact b.length_map Prod.fst
      · simpa using isBlocked_iff (fun p hp => (hcov p hp).2)
    have hlen := List.length_eq_countP_add_countP (isBlocked b) s.resources
    have hmov : movableCount j =
        s.resources.countP (fun a => decide ¬isBlocked b a = true) := by
      simp only [movableCount, hsnap, hb, Option.getD_some,
        List.countP_eq_length_filter]
      exact congrArg List.length (List.filter_congr (by simp))
    have hq : s.resources.countP (fun a => decide ¬isBlocked b a = true) =
        s.resources.length - b.length := by
      omega
    simp only [readyCount, totalResources, blockersCount, hsnap, hb,
      Option.map_some', Option.getD_some, hmov, hq, htot]
    omega

/-- A well-formed completed job: two resources, one genuine blocker entry. -/
def lockedJob : JobModel :=
  { inventory_snapshot := some { total_resources := 2, resources := ["a", "b"] },
    blockers := some [("b", ["protective lock present"])] }

/-- Witness for `c1_ready_to_move` at a concrete job. -/
theorem c1_ready_to_move_witness :
    renderStatus [("b", ["protective lock present"])] "a" = MoveCell.yes ∧
    readyCount lockedJob = (2 : Int) - (1 : Int) ∧
    readyCount lockedJob = (movableCount lockedJob : Int) := by
  refine ⟨?_, ?_, ?_⟩
  · exact (c1_ready_to_move.1 [("b", ["protective lock present"])] "a").mpr
      (by decide)
  · exact c1_ready_to_move.2.1 lockedJob
      { total_resources := 2, resources := ["a", "b"] }
      [("b", ["protective lock present"])] rfl rfl
  · exact c1_ready_to_move.2.2 lockedJob
      { total_resources := 2, resources := ["a", "b"] }
      [("b", ["protective lock present"])] rfl rfl (by decide) (by decide)
      (by decide) (by decide)

/-- C2: the claim fails on the "Attention Needed" count.  On a `COMPLETED`
job whose single blocker entry is a coverage-unknown marker, the rendered
blocked count is 1 — it includes the coverage-unknown resource — although the
count of genuine blockers is 0; only the table rendering (a dash) keeps the
resource distinguishable. -/
theorem c2_counterexample :
    blockersCount coverageUnknownJob = 1 ∧
    coverageUnknownCount (coverageUnknownJob.blockers.getD []) = 1 ∧
    genuineBlockerCount (coverageUnknownJob.blockers.getD []) = 0 ∧
    blockersCount coverageUnknownJob ≠
      genuineBlockerCount (coverageUnknownJob.blockers.getD []) := by
  decide

/-- C2 (amended): the job page's blocked/"Attention Needed" count is the
total number of blocker-map keys, so it does include coverage-unknown
resources (it decomposes as genuine blockers plus coverage-unknown entries);
coverage-unknown resources are nevertheless distinguished from both confirmed
movable and genuinely blocked ones in the rendered table: their "Can be
moved" cell is a dash, never "Yes" and never "No". -/
theorem c2_coverage_unknown :
    (∀ (j : JobModel) (b : BlockerMap), j.blockers = some b →
        blockersCount j = genuineBlockerCount b + coverageUnknownCount b) ∧
    (∀ (b : BlockerMap) (rid : String) (v : List String),
        b.lookup rid = some v → v ≠ [] → entryIsUnknown v = true →
        renderStatus b rid = MoveCell.dash) := by
  constructor
  · intro j b hb
    simp only [blockersCount, hb, genuineBlockerCount, coverageUnknownCount]
    have := List.length_eq_countP_add_countP (fun p => entryIsUnknown p.2) b
    have hc : b.countP (fun p => !entryIsUnknown p.2) =
        b.countP (fun p => decide ¬entryIsUnknown p.2 = true) :=
      List.countP_congr (by simp)
    omega
  · intro b rid v hv hne hu
    have hb : isBlocked b rid = true := by
      unfold isBlocked blockersListOf
      rw [hv]
      simpa [List.length_pos] using hne
    have hu' : isUnknown b rid = true := by
      unfold isUnknown combinedIssues blockersListOf
      rw [hv]
      exact hu
    unfold renderStatus
    rw [if_pos hb, if_pos hu']

/-- Witness for `c2_coverage_unknown` at a concrete job. -/
theorem c2_coverage_unknown_witness :
    blockersCount coverageUnknownJob =
      genuineBlockerCount
        [("r1", ["No specific official documentation found for this resource type"])] +
      coverageUnknownCount
        [("r1", ["No specific official documentation found for this resource type"])] ∧
    renderStatus
      [("r1", ["No specific official documentation found for this resource type"])]
      "r1" = MoveCell.dash := by
  constructor
  · exact c2_coverage_unknown.1 coverageUnknownJob _ rfl
  · exact c2_coverage_unknown.2 _ "r1"
      ["No specific official documentation found for this resource type"]
      (by decide) (by decide) (by decide)

/-! ## `handleResponse` (api.ts) -/

/-- What a call of `handleResponse` produces for the caller: either the parsed
JSON body, a thrown `Error` with the given message, or the rejection of the
`res.json()` promise when an ok response's body is not valid JSON. -/
inductive JsOutcome where
  | value (body : List (String × String))
  | thrown (msg : String)
  | jsonRejection
deriving DecidableEq, Repr

/-- The parts of a `fetch` `Response` that `handleResponse` consumes: the `ok`
flag, the `statusText`, and the JSON body (`none` when the body does not parse
as JSON; fields modelled as a string-valued association list). -/
structure ResponseModel where
  ok : Bool
  statusText : String
  jsonBody : Option (List (String × String))
deriving DecidableEq, Repr

/-- `JSON.stringify` on a flat string-valued object, as used for the
`handleResponse` fallback message (escaping of special characters inside the
strings is not modelled). -/
def jsonStringify (b : List (String × String)) : String :=
  "\x7b" ++
    String.intercalate ","
      (b.map (fun p => "\"" ++ p.1 ++ "\":\"" ++ p.2 ++ "\"")) ++
  "\x7d"

/-- JavaScript `a || fallback` where `a` is an optional string field: the
field's value when present and truthy (non-empty), otherwise the fallback. -/
def truthyOrElse (v : Option String) (fallback : String) : String :=
  match v with
  | some s => if s = "" then fallback else s
  | none => fallback

/-- `handleResponse` in api.ts: on a non-ok response, throw an `Error` whose
message is `errorData.detail || errorData.message || JSON.stringify(errorData)`
when the body parses as JSON, and `res.statusText` otherwise; on an ok
response, return `res.json()`. -/
def handleResponse (r : ResponseModel) : JsOutcome :=
  if r.ok then
    match r.jsonBody with
    | some b => JsOutcome.value b
    | none => JsOutcome.jsonRejection
  else
    match r.jsonBody with
    | some b =>
      JsOutcome.thrown
        (truthyOrElse (b.lookup "detail")
          (truthyOrElse (b.lookup "message") (jsonStringify b)))
    | none => JsOutcome.thrown r.statusText

/-- The message-selection rule exactly as the claim words it: the `detail`
field when present, else the `message` field, else the serialized JSON body,
else the HTTP status text. -/
def claimedErrorMsg (r : ResponseModel) : String :=
  match r.jsonBody with
  | some b =>
    match b.lookup "detail" with
    | some d => d
    | none =>
      match b.lookup "message" with
      | some m => m
      | none => jsonStringify b
  | none => r.statusText

/-- A non-ok response whose JSON body carries a present-but-empty `detail`
field next to a non-empty `message` field. -/
def emptyDetailResponse : ResponseModel :=
  { ok := false, statusText := "Bad Request",
    jsonBody := some [("detail", ""), ("message", "boom")] }

/-- C3: the claim fails for a present-but-empty `detail` field.  JavaScript's
`errorData.detail || errorData.message || ...` falls through on any falsy
value, so a non-ok response whose body is
`{"detail": "", "message": "boom"}` throws `Error("boom")`, while the claim's
rule ("the detail field when present") selects the empty string. -/
theorem c3_counterexample :
    handleResponse emptyDetailResponse = JsOutcome.thrown "boom" ∧
    (emptyDetailResponse.jsonBody.getD []).lookup "detail" = some "" ∧
    claimedErrorMsg emptyDetailResponse = "" ∧
    ("boom" : String) ≠ "" := by
  decide

/-- C3 (amended): for every non-ok response `handleResponse` throws and never
returns a value; the thrown message is the body's `detail` field when present
and non-empty, else its `message` field when present and non-empty, else the
serialized JSON body, else (body unparseable) the HTTP status text; an ok
response returns the parsed JSON body.  In particular a non-empty pre-flight
rejection detail reaches the caller verbatim. -/
theorem c3_handle_response :
    (∀ r : ResponseModel,
        r.ok = false → ∀ v, handleResponse r ≠ JsOutcome.value v) ∧
    (∀ (r : ResponseModel) (b : List (String × String)) (d : String),
        r.ok = false → r.jsonBody = some b →
        b.lookup "detail" = some d → d ≠ "" →
        handleResponse r = JsOutcome.thrown d) ∧
    (∀ (r : ResponseModel) (b : List (String × String)) (m : String),
        r.ok = false → r.jsonBody = some b →
        (b.lookup "detail" = none ∨ b.lookup "detail" = some "") →
        b.lookup "message" = some m → m ≠ "" →
        handleResponse r = JsOutcome.thrown m) ∧
    (∀ (r : ResponseModel) (b : List (String × String)),
        r.ok = false → r.jsonBody = some b →
        (b.lookup "detail" = none ∨ b.lookup "detail" = some "") →
        (b.lookup "message" = none ∨ b.lookup "message" = some "") →
        handleResponse r = JsOutcome.thrown (jsonStringify b)) ∧
    (∀ r : ResponseModel, r.ok = false → r.jsonBody = none →
        handleResponse r = JsOutcome.thrown r.statusText) ∧
    (∀ (r : ResponseModel) (b : List (String × String)),
        r.ok = true → r.jsonBody = some b →
        handleResponse r = JsOutcome.value b) := by
  refine ⟨?_, ?_, ?_, ?_, ?_, ?_⟩
  · intro r hok v
    unfold handleResponse
    rw [hok]
    cases r.jsonBody <;> simp
  · intro r b d hok hb hd hdne
    unfold handleResponse
    rw [hok, hb]
    simp [truthyOrElse, hd, hdne]
  · intro r b m hok hb hd hm hmne
    unfold handleResponse
    rw [hok, hb]
    rcases hd with hd | hd <;>
      simp [truthyOrElse, hd, hm, hmne]
  · intro r b hok hb hd hm
    unfold handleResponse
    rw [hok, hb]
    rcases hd with hd | hd <;> rcases hm with hm | hm <;>
      simp [truthyOrElse, hd, hm]
  · intro r hok hb
    unfold handleResponse
    rw [hok, hb]
    rfl
  · intro r b hok hb
    unfold handleResponse
    rw [hok, hb]
    rfl

/-- A non-ok response carrying a pre-flight validation rejection detail. -/
def rejectionResponse : ResponseModel :=
  { ok := false, statusText := "Unprocessable Entity",
    jsonBody := some [("detail", "quota exceeded")] }

/-- An ok response carrying a parsed job-id body. -/
def okJobIdResponse : ResponseModel :=
  { ok := true, statusText := "OK", jsonBody := some [("job_id", "j1")] }

/-- Witness for `c3_handle_response`: the rejection detail "quota exceeded"
reaches the caller verbatim, and a plain ok response returns its body. -/
theorem c3_handle_response_witness :
    handleResponse rejectionResponse = JsOutcome.thrown "quota exceeded" ∧
    handleResponse rejectionResponse ≠ JsOutcome.value [] ∧
    handleResponse okJobIdResponse = JsOutcome.value [("job_id", "j1")] := by
  refine ⟨?_, ?_, ?_⟩
  · exact c3_handle_response.2.1 rejectionResponse
      [("detail", "quota exceeded")] "quota exceeded" rfl rfl (by decide)
      (by decide)
  · exact c3_handle_response.1 rejectionResponse rfl []
  · exact c3_handle_response.2.2.2.2.2 okJobIdResponse
      [("job_id", "j1")] rfl rfl

/-! ## The `api` client object (api.ts) -/

/-- A JSON payload value in an api request body: a string or an array of
strings (the only shapes the api client sends). -/
inductive JVal where
  | s (v : String)
  | arr (vs : List String)
deriving DecidableEq, Repr

/-- `API_URL` in api.ts (the `NEXT_PUBLIC_API_URL` default). -/
def API_URL : String := "http://localhost:8000"

/-- The single HTTP request an api-client operation issues. -/
structure RequestModel where
  method : String
  url : String
  body : Option (List (String × JVal))
deriving DecidableEq, Repr

/-- JavaScript truthiness of an optional string argument: defined and
non-empty. -/
def isTruthy (v : Option String) : Bool :=
  match v with
  | some s => s ≠ ""
  | none => false

/-- The payload `api.triggerAssessment` builds: always `tenant_id` and
`subscription_id`; `client_id` and `client_secret` are added only under
`if (clientId && clientSecret)`, i.e. when both optional arguments are
supplied and non-empty. -/
def assessPayload (tenantId subscriptionId : String)
    (clientId clientSecret : Option String) : List (String × JVal) :=
  let payload := [("tenant_id", JVal.s tenantId),
                  ("subscription_id", JVal.s subscriptionId)]
  match clientId, clientSecret with
  | some cid, some cs =>
    if cid ≠ "" ∧ cs ≠ "" then
      payload ++ [("client_id", JVal.s cid), ("client_secret", JVal.s cs)]
    else payload
  | _, _ => payload

/-- The request issued by `api.triggerAssessment`. -/
def triggerAssessmentRequest (tenantId subscriptionId : String)
    (clientId clientSecret : Option String) : RequestModel :=
  { method := "POST", url := API_URL ++ "/api/v1/assess",
    body := some (assessPayload tenantId subscriptionId clientId clientSecret) }

/-- The request issued by `api.getJobStatus`. -/
def getJobStatusRequest (jobId : String) : RequestModel :=
  { method := "GET", url := API_URL ++ "/api/v1/jobs/" ++ jobId, body := none }

/-- The request issued by `api.triggerMigration`. -/
def triggerMigrationRequest (jobId sourceRg targetRgId : String)
    (resources : List String) : RequestModel :=
  { method := "POST", url := API_URL ++ "/api/v1/migrate",
    body := some [("job_id", JVal.s jobId),
                  ("source_resource_group", JVal.s sourceRg),
                  ("target_resource_group_id", JVal.s targetRgId),
                  ("resources", JVal.arr resources)] }

/-- The request issued by `api.getMigrationPlan`. -/
def getMigrationPlanRequest (planId : String) : RequestModel :=
  { method := "GET", url := API_URL ++ "/api/v1/plans/" ++ planId,
    body := none }

/-- The URL string returned by `api.getExportUrl` (no request is issued). -/
def getExportUrl (jobId : String) : String :=
  API_URL ++ "/api/v1/jobs/" ++ jobId ++ "/export"

/-- The URL string returned by `api.getARMExportUrl` (no request is issued). -/
def getARMExportUrl (jobId : String) : String :=
  API_URL ++ "/api/v1/jobs/" ++ jobId ++ "/export/arm"

/-- The members of the exported `api` object, in source order. -/
inductive ApiMember where
  | triggerAssessment
  | getJobStatus
  | triggerMigration
  | getMigrationPlan
  | getExportUrl
  | getARMExportUrl
deriving DecidableEq, Repr

/-- The `api` object as a list of its members, in source order. -/
def apiMembers : List ApiMember :=
  [ApiMember.triggerAssessment, ApiMember.getJobStatus,
   ApiMember.triggerMigration, ApiMember.getMigrationPlan,
   ApiMember.getExportUrl, ApiMember.getARMExportUrl]

/-- Whether an api member performs an HTTP request (`fetch`), as opposed to
merely building a URL string. -/
def performsRequest : ApiMember → Bool
  | ApiMember.triggerAssessment => true
  | ApiMember.getJobStatus => true
  | ApiMember.triggerMigration => true
  | ApiMember.getMigrationPlan => true
  | ApiMember.getExportUrl => false
  | ApiMember.getARMExportUrl => false

/-- The declared result shape of each api member, from the TypeScript return
types in api.ts. -/
inductive ResultShape where
  | jobIdObject
  | assessmentJobRecord
  | planIdObject
  | migrationPlanRecord
  | urlString
deriving DecidableEq, Repr

/-- Result shape of each api member, from its TypeScript annotation:
`Promise<{job_id}>`, `Promise<AssessmentJob>`, `Promise<{plan_id}>`,
`Promise<MigrationPlan>`, `string`, `string`. -/
def resultShape : ApiMember → ResultShape
  | ApiMember.triggerAssessment => ResultShape.jobIdObject
  | ApiMember.getJobStatus => ResultShape.assessmentJobRecord
  | ApiMember.triggerMigration => ResultShape.planIdObject
  | ApiMember.getMigrationPlan => ResultShape.migrationPlanRecord
  | ApiMember.getExportUrl => ResultShape.urlString
  | ApiMember.getARMExportUrl => ResultShape.urlString

/-- The four operations the spec's caller-facing surface names. -/
def specSurfaceOps : List ApiMember :=
  [ApiMember.triggerAssessment, ApiMember.getJobStatus,
   ApiMember.triggerMigration, ApiMember.getMigrationPlan]

/-- C4: the claim fails on "exactly the four operations": the `api` object
exposes six members — besides the four request-performing operations it also
exposes the report-export URL builders `getExportUrl` and `getARMExportUrl`. -/
theorem c4_counterexample :
    ApiMember.getExportUrl ∈ apiMembers ∧
    ApiMember.getExportUrl ∉ specSurfaceOps ∧
    apiMembers ≠ specSurfaceOps := by
  decide

/-- C4 (amended): the request-performing operations of the api client are
exactly the four the spec names, in order, each issued as a single request to
its endpoint with the scope/selection/target arguments it was given and with
the stated result shape; the two remaining members are export-URL builders
for the excluded report path and perform no request. -/
theorem c4_api_surface :
    apiMembers.filter performsRequest = specSurfaceOps ∧
    (∀ t s cid cs,
        (triggerAssessmentRequest t s cid cs).method = "POST" ∧
        (triggerAssessmentRequest t s cid cs).url =
          API_URL ++ "/api/v1/assess" ∧
        (∃ p, (triggerAssessmentRequest t s cid cs).body = some p ∧
          ("tenant_id", JVal.s t) ∈ p ∧ ("subscription_id", JVal.s s) ∈ p)) ∧
    resultShape ApiMember.triggerAssessment = ResultShape.jobIdObject ∧
    (∀ jobId, (getJobStatusRequest jobId).method = "GET" ∧
        (getJobStatusRequest jobId).url =
          API_URL ++ "/api/v1/jobs/" ++ jobId ∧
        (getJobStatusRequest jobId).body = none) ∧
    resultShape ApiMember.getJobStatus = ResultShape.assessmentJobRecord ∧
    (∀ jobId sourceRg targetRgId resources,
        (triggerMigrationRequest jobId sourceRg targetRgId resources).method =
          "POST" ∧
        (triggerMigrationRequest jobId sourceRg targetRgId resources).url =
          API_URL ++ "/api/v1/migrate" ∧
        (triggerMigrationRequest jobId sourceRg targetRgId resources).body =
          some [("job_id", JVal.s jobId),
                ("source_resource_group", JVal.s sourceRg),
                ("target_resource_group_id", JVal.s targetRgId),
                ("resources", JVal.arr resources)]) ∧
    resultShape ApiMember.triggerMigration = ResultShape.planIdObject ∧
    (∀ planId, (getMigrationPlanRequest planId).method = "GET" ∧
        (getMigrationPlanRequest planId).url =
          API_URL ++ "/api/v1/plans/" ++ planId ∧
        (getMigrationPlanRequest planId).body = none) ∧
    resultShape ApiMember.getMigrationPlan = ResultShape.migrationPlanRecord := by
  refine ⟨by decide, ?_, rfl, fun jobId => ⟨rfl, rfl, rfl⟩, rfl,
    fun j s t r => ⟨rfl, rfl, rfl⟩, rfl, fun planId => ⟨rfl, rfl, rfl⟩, rfl⟩
  intro t s cid cs
  refine ⟨rfl, rfl, assessPayload t s cid cs, rfl, ?_, ?_⟩
  · unfold assessPayload
    cases cid <;> cases cs <;> simp <;> split <;> simp
  · unfold assessPayload
    cases cid <;> cases cs <;> simp <;> split <;> simp

/-- C10: `client_id` and `client_secret` appear in the assessment payload if
and only if both credential arguments are supplied and non-empty; otherwise
the payload is exactly the credential-free form. -/
theorem c10_assess_payload :
    ∀ (t s : String) (cid cs : Option String),
      ((∃ v, ("client_id", v) ∈ assessPayload t s cid cs) ↔
        (∃ c k, cid = some c ∧ c ≠ "" ∧ cs = some k ∧ k ≠ "")) ∧
      ((∃ v, ("client_secret", v) ∈ assessPayload t s cid cs) ↔
        (∃ c k, cid = some c ∧ c ≠ "" ∧ cs = some k ∧ k ≠ "")) ∧
      (¬(∃ c k, cid = some c ∧ c ≠ "" ∧ cs = some k ∧ k ≠ "") →
        assessPayload t s cid cs =
          [("tenant_id", JVal.s t), ("subscription_id", JVal.s s)]) := by
  intro t s cid cs
  refine ⟨?_, ?_, ?_⟩
  · unfold assessPayload
    cases cid <;> cases cs <;> simp
    split <;> simp_all
  · unfold assessPayload
    cases cid <;> cases cs <;> simp
    split <;> simp_all
  · intro hno
    unfold assessPayload
    cases cid <;> cases cs <;> simp_all

/-- Witness for `c10_assess_payload`: with only a client id supplied (no
secret), neither credential field is sent. -/
theorem c10_assess_payload_witness :
    assessPayload "t1" "s1" (some "app-id") none =
      [("tenant_id", JVal.s "t1"), ("subscription_id", JVal.s "s1")] := by
  exact (c10_assess_payload "t1" "s1" (some "app-id") none).2.2 (by simp)

/-! ## Migration Plan Compiler

The compiler itself is not among the visible sources (only the portal is);
the definitions in this section are modelled from the specification §4.5. -/

/-- Modelled from the spec: the compiler's error taxonomy (§4.5, §7) —
`CycleDetected`, `UnknownResource`, `ValidationRejected` with the rejection
detail preserved verbatim.  The compiler implementation is absent from the
repository sources. -/
inductive CompileError where
  | CycleDetected
  | UnknownResource
  | ValidationRejected (detail : String)
deriving DecidableEq, Repr

/-- Modelled from the spec: "restrict the dependency graph to the selection"
(§4.5) — keep exactly the edges with both endpoints selected. -/
def restrictEdges (edges : List (String × String)) (selection : List String) :
    List (String × String) :=
  edges.filter (fun e => decide (e.1 ∈ selection) && decide (e.2 ∈ selection))

/-- Modelled from the spec: a resource has in-degree zero in the graph
restricted to the still-unassigned resources — no edge from a remaining
resource targets it. -/
def isReady (edges : List (String × String)) (remaining : List String)
    (r : String) : Bool :=
  !(edges.any (fun e => e.2 == r && decide (e.1 ∈ remaining)))

/-- The in-degree-zero resources of the remaining set, in remaining order. -/
def readyIn (edges : List (String × String)) (remaining : List String) :
    List String :=
  remaining.filter (isReady edges remaining)

/-- The remaining resources that still have an unassigned predecessor. -/
def blockedIn (edges : List (String × String)) (remaining : List String) :
    List String :=
  remaining.filter (fun x => !isReady edges remaining x)

/-- Modelled from the spec: Kahn-style topological leveling (§4.5) —
"resources with in-degree zero in the restricted graph form batch 0; remove
them, repeat.  If any resource remains unassigned after leveling terminates,
that is a cycle among the selection ⇒ `CycleDetected`".  The fuel argument
bounds the rounds; `compile` passes the selection size, which suffices since
every successful round assigns at least one resource. -/
def levelingAux (edges : List (String × String)) :
    Nat → List String → Except CompileError (List (List String))
  | _, [] => Except.ok []
  | 0, _ :: _ => Except.error CompileError.CycleDetected
  | fuel + 1, a :: as =>
    if (readyIn edges (a :: as)).isEmpty then
      Except.error CompileError.CycleDetected
    else
      match levelingAux edges fuel (blockedIn edges (a :: as)) with
      | Except.ok bs => Except.ok (readyIn edges (a :: as) :: bs)
      | Except.error e => Except.error e

/-- Character-list comparison underlying the lexical resource-id order. -/
def charListLe : List Char → List Char → Bool
  | [], _ => true
  | _ :: _, [] => false
  | a :: as, b :: bs =>
    if a.toNat < b.toNat then true
    else if a.toNat = b.toNat then charListLe as bs
    else false

/-- Lexical (code-point) order on resource ids. -/
def idLe (a b : String) : Bool := charListLe a.data b.data

/-- Insert into a lexically sorted list of resource ids. -/
def insertAsc (x : String) : List String → List String
  | [] => [x]
  | y :: ys => if idLe x y then x :: y :: ys else y :: insertAsc x ys

/-- Modelled from the spec: the stable lexical ordering of the selection,
realising "ties within a level broken by a stable secondary key (resource id
lexical order) for reproducibility" (§4.5): the selection is ordered
lexically before leveling, and `readyIn` preserves that order level by
level. -/
def sortAsc : List String → List String
  | [] => []
  | x :: xs => insertAsc x (sortAsc xs)

/-- Modelled from the spec: `compile(job snapshot, selection, target)` (§4.5)
— reject selections referencing unknown resources, level the restricted
graph, then submit the full ordered resource list to the pre-flight
validation collaborator (`validate` returns `some detail` on rejection); a
plan is produced only when leveling assigned every resource and validation
accepted. -/
def compile (snapshotIds : List String) (edges : List (String × String))
    (selection : List String) (validate : List String → Option String) :
    Except CompileError (List (List String)) :=
  if selection.any (fun r => decide (r ∉ snapshotIds)) then
    Except.error CompileError.UnknownResource
  else
    match levelingAux (restrictEdges edges selection)
        (sortAsc selection).length (sortAsc selection) with
    | Except.error e => Except.error e
    | Except.ok batches =>
      match validate batches.flatten with
      | some detail => Except.error (CompileError.ValidationRejected detail)
      | none => Except.ok batches

/-- Index of the first batch containing a resource. -/
def batchIndex (bs : List (List String)) (x : String) : Option Nat :=
  match bs with
  | [] => none
  | b :: rest => if x ∈ b then some 0 else (batchIndex rest x).map (· + 1)

theorem mem_insertAsc {x a : String} {l : List String} :
    a ∈ insertAsc x l ↔ a = x ∨ a ∈ l := by
  induction l with
  | nil => simp [insertAsc]
  | cons y ys ih =>
    by_cases h : idLe x y = true
    · simp [insertAsc, h]
    · simp only [insertAsc, if_neg h, List.mem_cons, ih]
      tauto

theorem mem_sortAsc {a : String} {l : List String} :
    a ∈ sortAsc l ↔ a ∈ l := by
  induction l with
  | nil => simp [sortAsc]
  | cons y ys ih => simp [sortAsc, mem_insertAsc, ih]

theorem isReady_false_of_pred {edges : List (String × String)}
    {remaining : List String} {s r : String}
    (hedge : (s, r) ∈ edges) (hs : s ∈ remaining) :
    isReady edges remaining r = false := by
  unfold isReady
  simp only [Bool.not_eq_false', List.any_eq_true]
  exact ⟨(s, r), hedge, by simp [hs]⟩

theorem mem_readyIn {edges : List (String × String)} {remaining : List String}
    {x : String} :
    x ∈ readyIn edges remaining ↔
      x ∈ remaining ∧ isReady edges remaining x = true := by
  simp [readyIn, List.mem_filter]

theorem mem_blockedIn {edges : List (String × String)}
    {remaining : List String} {x : String} :
    x ∈ blockedIn edges remaining ↔
      x ∈ remaining ∧ isReady edges remaining x = false := by
  simp [blockedIn, List.mem_filter]

theorem levelingAux_order (edges : List (String × String)) :
    ∀ (fuel : Nat) (remaining : List String) (bs : List (List String)),
      levelingAux edges fuel remaining = Except.ok bs →
      ∀ s r, (s, r) ∈ edges → s ∈ remaining → r ∈ remaining →
      ∀ i j, batchIndex bs s = some j → batchIndex bs r = some i → j < i := by
  intro fuel
  induction fuel with
  | zero =>
    intro remaining bs h s r hedge hs hr i j hbs hbr
    cases remaining with
    | nil => simp at hs
    | cons a as => simp [levelingAux] at h
  | succ fuel ih =>
    intro remaining bs h s r hedge hs hr i j hbs hbr
    cases remaining with
    | nil => simp at hs
    | cons a as =>
      rw [levelingAux] at h
      by_cases hrd : (readyIn edges (a :: as)).isEmpty
      · rw [if_pos hrd] at h
        exact absurd h (by simp)
      · rw [if_neg hrd] at h
        cases hrec : levelingAux edges fuel (blockedIn edges (a :: as)) with
        | error e => rw [hrec] at h; exact absurd h (by simp)
        | ok bs' =>
          rw [hrec] at h
          injection h with h
          subst h
          have hrnotready : isReady edges (a :: as) r = false :=
            isReady_false_of_pred hedge hs
          have hrnotin : r ∉ readyIn edges (a :: as) := by
            rw [mem_readyIn]
            simp [hrnotready]
          rw [batchIndex, if_neg hrnotin] at hbr
          obtain ⟨i', hbi', rfl⟩ := Option.map_eq_some'.mp hbr
          rw [batchIndex] at hbs
          by_cases hsin : s ∈ readyIn edges (a :: as)
          · rw [if_pos hsin] at hbs
            injection hbs with hbs
            omega
          · rw [if_neg hsin] at hbs
            obtain ⟨j', hbj', rfl⟩ := Option.map_eq_some'.mp hbs
            have hsblocked : s ∈ blockedIn edges (a :: as) := by
              rw [mem_blockedIn]
              refine ⟨hs, ?_⟩
              by_contra hc
              exact hsin (mem_readyIn.mpr ⟨hs, Bool.of_not_eq_false hc⟩)
            have hrblocked : r ∈ blockedIn edges (a :: as) :=
              mem_blockedIn.mpr ⟨hr, hrnotready⟩
            have := ih _ bs' hrec s r hedge hsblocked hrblocked i' j' hbj' hbi'
            omega

theorem levelingAux_complete (edges : List (String × String)) :
    ∀ (fuel : Nat) (remaining : List String) (bs : List (List String)),
      levelingAux edges fuel remaining = Except.ok bs →
      ∀ x ∈ remaining, ∃ i, batchIndex bs x = some i := by
  intro fuel
  induction fuel with
  | zero =>
    intro remaining bs h x hx
    cases remaining with
    | nil => simp at hx
    | cons a as => simp [levelingAux] at h
  | succ fuel ih =>
    intro remaining bs h x hx
    cases remaining with
    | nil => simp at hx
    | cons a as =>
      rw [levelingAux] at h
      by_cases hrd : (readyIn edges (a :: as)).isEmpty
      · rw [if_pos hrd] at h
        exact absurd h (by simp)
      · rw [if_neg hrd] at h
        cases hrec : levelingAux edges fuel (blockedIn edges (a :: as)) with
        | error e => rw [hrec] at h; exact absurd h (by simp)
        | ok bs' =>
          rw [hrec] at h
          injection h with h
          subst h
          by_cases hxin : x ∈ readyIn edges (a :: as)
          · exact ⟨0, by rw [batchIndex, if_pos hxin]⟩
          · have hxblocked : x ∈ blockedIn edges (a :: as) := by
              rw [mem_blockedIn]
              refine ⟨hx, ?_⟩
              by_contra hc
              exact hxin (mem_readyIn.mpr ⟨hx, Bool.of_not_eq_false hc⟩)
            obtain ⟨i, hi⟩ := ih _ bs' hrec x hxblocked
            exact ⟨i + 1, by rw [batchIndex, if_neg hxin, hi]; rfl⟩

theorem levelingAux_nodep (edges : List (String × String))
    (fuel : Nat) (remaining : List String) (bs : List (List String))
    (h : levelingAux edges fuel remaining = Except.ok bs)
    (x : String) (hx : x ∈ remaining) (hnodep : ∀ e ∈ edges, e.2 ≠ x) :
    batchIndex bs x = some 0 := by
  cases remaining with
  | nil => simp at hx
  | cons a as =>
    have hxready : isReady edges (a :: as) x = true := by
      unfold isReady
      simp only [Bool.not_eq_true', List.any_eq_false]
      intro e he
      simp [hnodep e he]
    cases fuel with
    | zero => simp [levelingAux] at h
    | succ fuel =>
      rw [levelingAux] at h
      by_cases hrd : (readyIn edges (a :: as)).isEmpty
      · rw [if_pos hrd] at h
        exact absurd h (by simp)
      · rw [if_neg hrd] at h
        cases hrec : levelingAux edges fuel (blockedIn edges (a :: as)) with
        | error e => rw [hrec] at h; exact absurd h (by simp)
        | ok bs' =>
          rw [hrec] at h
          injection h with h
          subst h
          rw [batchIndex, if_pos (mem_readyIn.mpr ⟨hx, hxready⟩)]

theorem levelingAux_cycle (edges : List (String × String)) :
    ∀ (fuel : Nat) (remaining : List String) (S : List String),
      S ≠ [] → (∀ r ∈ S, r ∈ remaining) →
      (∀ r ∈ S, ∃ s ∈ S, (s, r) ∈ edges) →
      levelingAux edges fuel remaining =
        Except.error CompileError.CycleDetected := by
  intro fuel
  induction fuel with
  | zero =>
    intro remaining S hne hsub _
    cases remaining with
    | nil =>
      cases S with
      | nil => exact absurd rfl hne
      | cons r rs => exact absurd (hsub r (by simp)) (by simp)
    | cons a as => rfl
  | succ fuel ih =>
    intro remaining S hne hsub hcyc
    cases remaining with
    | nil =>
      cases S with
      | nil => exact absurd rfl hne
      | cons r rs => exact absurd (hsub r (by simp)) (by simp)
    | cons a as =>
      rw [levelingAux]
      by_cases hrd : (readyIn edges (a :: as)).isEmpty
      · rw [if_pos hrd]
      · rw [if_neg hrd]
        have hsub' : ∀ r ∈ S, r ∈ blockedIn edges (a :: as) := by
          intro r hr
          obtain ⟨s, hsS, hedge⟩ := hcyc r hr
          exact mem_blockedIn.mpr
            ⟨hsub r hr, isReady_false_of_pred hedge (hsub s hsS)⟩
        rw [ih (blockedIn edges (a :: as)) S hne hsub' hcyc]

/-- C5 (spec-modelled): whenever `compile` produces a plan, its batches are a
valid topological leveling of the restricted dependency graph — every
selected resource is assigned a batch, a resource never depends (per the
restricted graph) on a resource placed in a later-or-equal batch (the
predecessor's batch index is strictly smaller), and every selected resource
with no dependency in the restricted graph is placed in the earliest batch,
batch 0. -/
theorem c5_plan_leveling (snapshotIds : List String)
    (edges : List (String × String)) (selection : List String)
    (validate : List String → Option String) (batches : List (List String))
    (h : compile snapshotIds edges selection validate = Except.ok batches) :
    (∀ x ∈ selection, ∃ i, batchIndex batches x = some i) ∧
    (∀ s r, (s, r) ∈ restrictEdges edges selection →
      ∀ i j, batchIndex batches s = some j → batchIndex batches r = some i →
      j < i) ∧
    (∀ x ∈ selection, (∀ e ∈ restrictEdges edges selection, e.2 ≠ x) →
      batchIndex batches x = some 0) := by
  unfold compile at h
  by_cases hunk : selection.any (fun r => decide (r ∉ snapshotIds))
  · rw [if_pos hunk] at h
    exact absurd h (by simp)
  · rw [if_neg hunk] at h
    cases hlev : levelingAux (restrictEdges edges selection)
        (sortAsc selection).length (sortAsc selection) with
    | error e => rw [hlev] at h; exact absurd h (by simp)
    | ok bs =>
      rw [hlev] at h
      dsimp only at h
      cases hval : validate bs.flatten with
      | some d => rw [hval] at h; exact absurd h (by simp)
      | none =>
        rw [hval] at h
        injection h with h
        subst h
        refine ⟨?_, ?_, ?_⟩
        · intro x hx
          exact levelingAux_complete _ _ _ _ hlev x (mem_sortAsc.mpr hx)
        · intro s r hedge i j hbs hbr
          have hs : s ∈ selection := by
            have := List.mem_filter.mp hedge
            simp only [Bool.and_eq_true, decide_eq_true_eq] at this
            exact this.2.1
          have hr : r ∈ selection := by
            have := List.mem_filter.mp hedge
            simp only [Bool.and_eq_true, decide_eq_true_eq] at this
            exact this.2.2
          exact levelingAux_order _ _ _ _ hlev s r hedge
            (mem_sortAsc.mpr hs) (mem_sortAsc.mpr hr) i j hbs hbr
        · intro x hx hnodep
          exact levelingAux_nodep _ _ _ _ hlev x (mem_sortAsc.mpr hx) hnodep

/-- Witness for `c5_plan_leveling`: the spec's end-to-end scenario A — a
network resource, a disk, and a VM depending on both compile to exactly two
batches, `[disk, net]` (lexical order) then `[vm]`; the theorem instantiated
at the edge `(net, vm)` yields the batch-order fact `0 < 1`. -/
theorem c5_plan_leveling_witness :
    compile ["disk", "net", "vm"] [("net", "vm"), ("disk", "vm")]
        ["vm", "disk", "net"] (fun _ => none) =
      Except.ok [["disk", "net"], ["vm"]] ∧
    batchIndex [["disk", "net"], ["vm"]] "net" = some 0 ∧
    batchIndex [["disk", "net"], ["vm"]] "vm" = some 1 ∧
    (0 : Nat) < 1 := by
  have h : compile ["disk", "net", "vm"] [("net", "vm"), ("disk", "vm")]
      ["vm", "disk", "net"] (fun _ => none) =
        Except.ok [["disk", "net"], ["vm"]] := rfl
  refine ⟨h, by decide, by decide, ?_⟩
  exact (c5_plan_leveling _ _ _ _ _ h).2.1 "net" "vm" (by decide) 1 0
    (by decide) (by decide)

/-- C6 (spec-modelled): a selection containing a dependency cycle in the
restricted graph always compiles to `CycleDetected` — regardless of the
validation collaborator — and in particular never to a plan covering only the
acyclic portion of the selection. -/
theorem c6_cycle_detected (snapshotIds : List String)
    (edges : List (String × String)) (selection : List String)
    (validate : List String → Option String) (S : List String)
    (hne : S ≠ [])
    (hsel : ∀ r ∈ selection, r ∈ snapshotIds)
    (hsub : ∀ r ∈ S, r ∈ selection)
    (hcyc : ∀ r ∈ S, ∃ s ∈ S, (s, r) ∈ restrictEdges edges selection) :
    compile snapshotIds edges selection validate =
      Except.error CompileError.CycleDetected := by
  unfold compile
  have hunk : selection.any (fun r => decide (r ∉ snapshotIds)) = false := by
    simp only [List.any_eq_false, decide_eq_true_eq]
    intro r hr
    simp [hsel r hr]
  rw [if_neg (by rw [hunk]; exact Bool.false_ne_true)]
  rw [levelingAux_cycle (restrictEdges edges selection) _ _ S hne
    (fun r hr => mem_sortAsc.mpr (hsub r hr)) hcyc]

/-- Witness for `c6_cycle_detected`: two resources each depending on the
other compile to `CycleDetected`, not to a partial plan. -/
theorem c6_cycle_detected_witness :
    compile ["a", "b"] [("a", "b"), ("b", "a")] ["a", "b"] (fun _ => none) =
      Except.error CompileError.CycleDetected := by
  exact c6_cycle_detected ["a", "b"] [("a", "b"), ("b", "a")] ["a", "b"]
    (fun _ => none) ["a", "b"] (by decide) (by decide) (by decide) (by decide)

/-! ## Migration Executor/Monitor

The executor is not among the visible sources; the definitions in this
section are modelled from the specification §4.6. -/

/-- Modelled from the spec: the per-resource outcomes of the executor
(§4.6): `MOVED`, `FAILED`, `TIMED_OUT`. -/
inductive MoveOutcome where
  | MOVED
  | FAILED
  | TIMED_OUT
deriving DecidableEq, Repr

/-- Modelled from the spec: an execution-log entry — either the resolved
outcome of an attempted move, or the "not attempted" state of a resource
whose batch was never submitted. -/
inductive ExecEntry where
  | done (o : MoveOutcome)
  | notAttempted
deriving DecidableEq, Repr

/-- One batch's log entries: every resource of a submitted batch resolves to
its outcome (the `outcome` oracle abstracts the remote move operations);
in a non-submitted batch, every resource stays not attempted. -/
def execBatch (outcome : String → MoveOutcome) (halted : Bool)
    (batch : List String) : List (String × ExecEntry) :=
  batch.map (fun r =>
    (r, if halted then ExecEntry.notAttempted else ExecEntry.done (outcome r)))

/-- Modelled from the spec: the executor drives batches strictly in order,
waits for a whole batch to resolve, and stops submitting further batches once
a batch contains a `FAILED` resource (§4.6); already-issued moves of the
failing batch are not rolled back.  Returns the execution log, one entry list
per batch. -/
def runPlanAux (outcome : String → MoveOutcome) :
    Bool → List (List String) → List (List (String × ExecEntry))
  | _, [] => []
  | halted, b :: rest =>
    execBatch outcome halted b ::
      runPlanAux outcome
        (halted || b.any (fun r => outcome r == MoveOutcome.FAILED)) rest

/-- Modelled from the spec: executing a plan starts un-halted. -/
def runPlan (outcome : String → MoveOutcome) (batches : List (List String)) :
    List (List (String × ExecEntry)) :=
  runPlanAux outcome false batches

theorem runPlanAux_halted (outcome : String → MoveOutcome) :
    ∀ (batches : List (List String)) (j : Nat) (e : String × ExecEntry),
      e ∈ (runPlanAux outcome true batches).getD j [] →
      e.2 = ExecEntry.notAttempted := by
  intro batches
  induction batches with
  | nil => intro j e he; simp [runPlanAux] at he
  | cons b rest ih =>
    intro j e he
    cases j with
    | zero =>
      rw [runPlanAux] at he
      simp only [List.getD_cons_zero, execBatch, List.mem_map] at he
      obtain ⟨r, _, rfl⟩ := he
      rfl
    | succ j =>
      rw [runPlanAux] at he
      simp only [List.getD_cons_succ, Bool.true_or] at he
      exact ih j e he

theorem runPlanAux_fail_stops (outcome : String → MoveOutcome) :
    ∀ (batches : List (List String)) (halted : Bool) (i j : Nat), i < j →
      ∀ r, (r, ExecEntry.done MoveOutcome.FAILED) ∈
          (runPlanAux outcome halted batches).getD i [] →
      ∀ e ∈ (runPlanAux outcome halted batches).getD j [],
        e.2 = ExecEntry.notAttempted := by
  intro batches
  induction batches with
  | nil =>
    intro halted i j hij r hfail e he
    simp [runPlanAux] at hfail
  | cons b rest ih =>
    intro halted i j hij r hfail e he
    cases i with
    | zero =>
      cases j with
      | zero => omega
      | succ j =>
        rw [runPlanAux] at hfail he
        simp only [List.getD_cons_zero, execBatch, List.mem_map] at hfail
        obtain ⟨r', hr', hcell⟩ := hfail
        have hnothalted : halted = false := by
          cases halted with
          | false => rfl
          | true => simp at hcell
        subst hnothalted
        have hor : outcome r' = MoveOutcome.FAILED := by
          simp at hcell
          exact hcell.2
        have hhalt : (false || b.any
            (fun x => outcome x == MoveOutcome.FAILED)) = true := by
          simp only [Bool.false_or, List.any_eq_true]
          exact ⟨r', hr', by simp [hor]⟩
        rw [List.getD_cons_succ, hhalt] at he
        exact runPlanAux_halted outcome rest j e he
    | succ i =>
      cases j with
      | zero => omega
      | succ j =>
        rw [runPlanAux] at hfail he
        rw [List.getD_cons_succ] at hfail he
        exact ih _ i j (by omega) r hfail e he

/-- C7 (spec-modelled): during the execution of a plan, if a resource of
batch K resolves to `FAILED`, then every resource of every later batch K+n
stays in the "not attempted" state in the execution log — later batches are
never submitted after an earlier-batch failure. -/
theorem c7_fail_stops_later_batches (outcome : String → MoveOutcome)
    (batches : List (List String)) (i j : Nat) (hij : i < j) (r : String)
    (hfail : (r, ExecEntry.done MoveOutcome.FAILED) ∈
      (runPlan outcome batches).getD i []) :
    ∀ e ∈ (runPlan outcome batches).getD j [],
      e.2 = ExecEntry.notAttempted := by
  exact runPlanAux_fail_stops outcome batches false i j hij r hfail

/-- The outcome oracle of the witness scenario: resource `x` fails, every
other resource moves. -/
def witnessOutcome (r : String) : MoveOutcome :=
  if r = "x" then MoveOutcome.FAILED else MoveOutcome.MOVED

/-- Witness for `c7_fail_stops_later_batches`: with batches `[[x], [y]]` and
`x` failing, the single entry of batch 1 is not attempted. -/
theorem c7_fail_stops_later_batches_witness :
    ("y", ExecEntry.notAttempted) ∈
        (runPlan witnessOutcome [["x"], ["y"]]).getD 1 [] ∧
    (("y", ExecEntry.notAttempted) : String × ExecEntry).2 =
      ExecEntry.notAttempted := by
  refine ⟨by decide, ?_⟩
  exact c7_fail_stops_later_batches witnessOutcome [["x"], ["y"]] 0 1
    (by decide) "x" (by decide) ("y", ExecEntry.notAttempted) (by decide)

/-! ## Login page (`LoginPage`, `handleConnect`) -/

/-- The login mode of `LoginPage`: CLI/managed identity (`"auto"`) or
service principal (`"explicit"`). -/
inductive LoginMode where
  | auto
  | explicit
deriving DecidableEq, Repr

/-- The string form of the login mode, as placed in the `mode` query
parameter. -/
def modeString : LoginMode → String
  | LoginMode.auto => "auto"
  | LoginMode.explicit => "explicit"

/-- Models JavaScript `String.prototype.trim`: strip leading and trailing
whitespace. -/
def jsTrim (s : String) : String :=
  String.mk
    (((s.data.dropWhile Char.isWhitespace).reverse.dropWhile
        Char.isWhitespace).reverse)

/-- A `SavedLogin` record of `LoginPage` (the TypeScript field `alias` is
named `loginAlias` here, `alias` being reserved in Lean). -/
structure SavedLogin where
  loginAlias : String
  tenantId : String
  subId : String
  mode : LoginMode
  clientId : String
  clientSecret : String
deriving DecidableEq, Repr

/-- The `newLogin` record `handleConnect` builds from the current form
values: the trimmed alias plus tenant, subscription, mode and the credential
fields as typed. -/
def mkSavedLogin (aliasInput tenantId subId : String) (mode : LoginMode)
    (clientId clientSecret : String) : SavedLogin :=
  { loginAlias := jsTrim aliasInput, tenantId := tenantId, subId := subId,
    mode := mode, clientId := clientId, clientSecret := clientSecret }

/-- The saved-logins update of `handleConnect`: when the trimmed alias is
non-blank, find an existing entry with the same alias and replace it
(`findIndex` + assignment), otherwise append the new entry (`push`); with a
blank alias the list is left untouched. -/
def handleConnectSave (logins : List SavedLogin)
    (aliasInput tenantId subId : String) (mode : LoginMode)
    (clientId clientSecret : String) : List SavedLogin :=
  if jsTrim aliasInput = "" then logins
  else
    match logins.findIdx? (fun l => l.loginAlias ==
        (mkSavedLogin aliasInput tenantId subId mode clientId
          clientSecret).loginAlias) with
    | some idx =>
      logins.set idx
        (mkSavedLogin aliasInput tenantId subId mode clientId clientSecret)
    | none =>
      logins ++
        [mkSavedLogin aliasInput tenantId subId mode clientId clientSecret]

/-- Replace the first entry sharing the new login's alias, else append —
the recursion `handleConnectSave`'s `findIndex`/`set`/`push` combination
implements. -/
def upsertLogin (nl : SavedLogin) : List SavedLogin → List SavedLogin
  | [] => [nl]
  | l :: ls =>
    if l.loginAlias == nl.loginAlias then nl :: ls else l :: upsertLogin nl ls

theorem findIdx_set_eq_upsert (nl : SavedLogin) (logins : List SavedLogin) :
    (match logins.findIdx? (fun l => l.loginAlias == nl.loginAlias) with
     | some idx => logins.set idx nl
     | none => logins ++ [nl]) = upsertLogin nl logins := by
  induction logins with
  | nil => rfl
  | cons l ls ih =>
    rw [List.findIdx?_cons, List.findIdx?_succ]
    unfold upsertLogin
    by_cases h : (l.loginAlias == nl.loginAlias) = true
    · rw [if_pos h, if_pos h]
      rfl
    · rw [if_neg h, if_neg h]
      cases hf : ls.findIdx? (fun l => l.loginAlias == nl.loginAlias) with
      | none =>
        rw [hf] at ih
        simp only [hf, Option.map_none']
        rw [← ih]
        rfl
      | some idx =>
        rw [hf] at ih
        simp only [hf, Option.map_some']
        rw [← ih]
        rfl

theorem handleConnectSave_eq_upsert (logins : List SavedLogin)
    (aliasInput tenantId subId : String) (mode : LoginMode)
    (clientId clientSecret : String) (h : jsTrim aliasInput ≠ "") :
    handleConnectSave logins aliasInput tenantId subId mode clientId
        clientSecret =
      upsertLogin
        (mkSavedLogin aliasInput tenantId subId mode clientId clientSecret)
        logins := by
  unfold handleConnectSave
  rw [if_neg h]
  exact findIdx_set_eq_upsert _ logins

theorem mem_upsertLogin {nl x : SavedLogin} {ls : List SavedLogin}
    (h : x ∈ upsertLogin nl ls) : x = nl ∨ x ∈ ls := by
  induction ls with
  | nil => simpa [upsertLogin] using h
  | cons l ls ih =>
    unfold upsertLogin at h
    by_cases heq : (l.loginAlias == nl.loginAlias) = true
    · rw [if_pos heq] at h
      rcases List.mem_cons.mp h with h | h
      · exact Or.inl h
      · exact Or.inr (List.mem_cons_of_mem _ h)
    · rw [if_neg heq] at h
      rcases List.mem_cons.mp h with h | h
      · exact Or.inr (h ▸ List.mem_cons_self l ls)
      · rcases ih h with h | h
        · exact Or.inl h
        · exact Or.inr (List.mem_cons_of_mem _ h)

theorem upsertLogin_pairwise (nl : SavedLogin) {ls : List SavedLogin}
    (h : ls.Pairwise (fun a b => a.loginAlias ≠ b.loginAlias)) :
    (upsertLogin nl ls).Pairwise (fun a b => a.loginAlias ≠ b.loginAlias) := by
  induction ls with
  | nil => simp [upsertLogin]
  | cons l ls ih =>
    rw [List.pairwise_cons] at h
    obtain ⟨hl, hls⟩ := h
    unfold upsertLogin
    by_cases heq : (l.loginAlias == nl.loginAlias) = true
    · rw [if_pos heq, List.pairwise_cons]
      refine ⟨fun b hb => ?_, hls⟩
      rw [← beq_iff_eq.mp heq]
      exact hl b hb
    · rw [if_neg heq, List.pairwise_cons]
      refine ⟨fun b hb => ?_, ih hls⟩
      rcases mem_upsertLogin hb with rfl | hb
      · exact fun hc => heq (beq_iff_eq.mpr hc)
      · exact hl b hb

theorem upsertLogin_filter_eq (nl : SavedLogin) {ls : List SavedLogin}
    (h : ls.Pairwise (fun a b => a.loginAlias ≠ b.loginAlias)) :
    (upsertLogin nl ls).filter (fun x => x.loginAlias == nl.loginAlias) =
      [nl] := by
  induction ls with
  | nil => simp [upsertLogin]
  | cons l ls ih =>
    rw [List.pairwise_cons] at h
    obtain ⟨hl, hls⟩ := h
    unfold upsertLogin
    by_cases heq : (l.loginAlias == nl.loginAlias) = true
    · rw [if_pos heq]
      rw [List.filter_cons_of_pos (by simp)]
      have hnil : ls.filter (fun x => x.loginAlias == nl.loginAlias) = [] := by
        rw [List.filter_eq_nil_iff]
        intro x hx
        simp only [beq_iff_eq]
        rw [← beq_iff_eq.mp heq]
        exact fun hc => hl x hx hc.symm
      rw [hnil]
    · have heq' : (l.loginAlias == nl.loginAlias) = false :=
        Bool.of_not_eq_true heq
      rw [if_neg heq]
      simp only [List.filter_cons, heq', if_false]
      exact ih hls

theorem upsertLogin_filter_ne (nl : SavedLogin) (ls : List SavedLogin) :
    (upsertLogin nl ls).filter (fun x => !(x.loginAlias == nl.loginAlias)) =
      ls.filter (fun x => !(x.loginAlias == nl.loginAlias)) := by
  induction ls with
  | nil => simp [upsertLogin]
  | cons l ls ih =>
    unfold upsertLogin
    by_cases heq : (l.loginAlias == nl.loginAlias) = true
    · rw [if_pos heq]
      simp [List.filter_cons, heq]
    · have heq' : (l.loginAlias == nl.loginAlias) = false :=
        Bool.of_not_eq_true heq
      rw [if_neg heq]
      simp only [List.filter_cons, heq', Bool.not_false, if_true]
      rw [ih]

/-- C9: `handleConnect`'s saved-logins update.  On a list with pairwise
distinct aliases: a blank or whitespace-only alias leaves the list untouched;
a non-blank alias yields a list whose aliases are still pairwise distinct,
containing exactly one entry for the trimmed alias — the record of the
current form values — while every entry with a different alias is unchanged
(the sublist of other-alias entries is preserved, order included). -/
theorem c9_saved_logins (logins : List SavedLogin)
    (aliasInput tenantId subId : String) (mode : LoginMode)
    (clientId clientSecret : String)
    (hdist : logins.Pairwise (fun a b => a.loginAlias ≠ b.loginAlias)) :
    (jsTrim aliasInput = "" →
      handleConnectSave logins aliasInput tenantId subId mode clientId
        clientSecret = logins) ∧
    (jsTrim aliasInput ≠ "" →
      (handleConnectSave logins aliasInput tenantId subId mode clientId
          clientSecret).Pairwise (fun a b => a.loginAlias ≠ b.loginAlias) ∧
      (handleConnectSave logins aliasInput tenantId subId mode clientId
          clientSecret).filter (fun x => x.loginAlias == jsTrim aliasInput) =
        [mkSavedLogin aliasInput tenantId subId mode clientId clientSecret] ∧
      (handleConnectSave logins aliasInput tenantId subId mode clientId
          clientSecret).filter
          (fun x => !(x.loginAlias == jsTrim aliasInput)) =
        logins.filter (fun x => !(x.loginAlias == jsTrim aliasInput))) := by
  constructor
  · intro h
    unfold handleConnectSave
    rw [if_pos h]
  · intro h
    rw [handleConnectSave_eq_upsert logins aliasInput tenantId subId mode
      clientId clientSecret h]
    refine ⟨upsertLogin_pairwise _ hdist, ?_, ?_⟩
    · have hfe := upsertLogin_filter_eq
        (mkSavedLogin aliasInput tenantId subId mode clientId clientSecret)
        hdist
      simpa [mkSavedLogin] using hfe
    · have hfn := upsertLogin_filter_ne
        (mkSavedLogin aliasInput tenantId subId mode clientId clientSecret)
        logins
      simpa [mkSavedLogin] using hfn

/-- A one-entry saved-logins list. -/
def savedProd : SavedLogin :=
  { loginAlias := "prod", tenantId := "t0", subId := "s0",
    mode := LoginMode.auto, clientId := "", clientSecret := "" }

/-- Witness for `c9_saved_logins`: saving under the alias `" dev "` (trimmed
to `"dev"`) on the one-entry list `[prod]` keeps aliases distinct, stores
exactly the new record under `"dev"`, leaves the `prod` entry unchanged, and
a whitespace-only alias changes nothing. -/
theorem c9_saved_logins_witness :
    (handleConnectSave [savedProd] " dev " "t1" "s1" LoginMode.explicit
        "cid" "sec").Pairwise (fun a b => a.loginAlias ≠ b.loginAlias) ∧
    (handleConnectSave [savedProd] " dev " "t1" "s1" LoginMode.explicit
        "cid" "sec").filter (fun x => x.loginAlias == jsTrim " dev ") =
      [mkSavedLogin " dev " "t1" "s1" LoginMode.explicit "cid" "sec"] ∧
    (handleConnectSave [savedProd] " dev " "t1" "s1" LoginMode.explicit
        "cid" "sec").filter (fun x => !(x.loginAlias == jsTrim " dev ")) =
      [savedProd].filter (fun x => !(x.loginAlias == jsTrim " dev ")) ∧
    handleConnectSave [savedProd] "   " "t1" "s1" LoginMode.explicit
        "cid" "sec" = [savedProd] := by
  have h1 := (c9_saved_logins [savedProd] " dev " "t1" "s1"
    LoginMode.explicit "cid" "sec" (by decide)).2 (by decide)
  have h2 := (c9_saved_logins [savedProd] "   " "t1" "s1"
    LoginMode.explicit "cid" "sec" (by decide)).1 (by decide)
  exact ⟨h1.1, h1.2.1, h1.2.2, h2⟩

/-- The query parameters `handleConnect` passes to the dashboard: tenant,
subscription, mode, and the credential fields — forwarded only in
`"explicit"` mode, the empty string otherwise. -/
def dashboardParams (tenantId subId : String) (mode : LoginMode)
    (clientId clientSecret : String) : List (String × String) :=
  [("tenantId", tenantId), ("subId", subId), ("mode", modeString mode),
   ("clientId", if mode = LoginMode.explicit then clientId else ""),
   ("clientSecret", if mode = LoginMode.explicit then clientSecret else "")]

/-- Upper-case hexadecimal digit. -/
def hexDigitChar (n : Nat) : Char :=
  if n < 10 then Char.ofNat (48 + n) else Char.ofNat (55 + n)

/-- UTF-8 encoding of one character, as a list of byte values. -/
def utf8Bytes (c : Char) : List Nat :=
  let n := c.toNat
  if n < 128 then [n]
  else if n < 2048 then [192 + n / 64, 128 + n % 64]
  else if n < 65536 then
    [224 + n / 4096, 128 + (n / 64) % 64, 128 + n % 64]
  else
    [240 + n / 262144, 128 + (n / 4096) % 64, 128 + (n / 64) % 64,
     128 + n % 64]

/-- Bytes `URLSearchParams` serialization leaves unescaped: alphanumerics
and `*`, `-`, `.`, `_`. -/
def isUnreservedByte (b : Nat) : Bool :=
  (48 ≤ b && b ≤ 57) || (65 ≤ b && b ≤ 90) || (97 ≤ b && b ≤ 122) ||
    b == 42 || b == 45 || b == 46 || b == 95

/-- `application/x-www-form-urlencoded` encoding of one byte: space becomes
`+`, unreserved bytes stand for themselves, everything else is
percent-escaped. -/
def encodeByte (b : Nat) : String :=
  if b == 32 then "+"
  else if isUnreservedByte b then String.singleton (Char.ofNat b)
  else
    "%" ++ String.singleton (hexDigitChar (b / 16)) ++
      String.singleton (hexDigitChar (b % 16))

/-- Form-urlencoding of a string (as `URLSearchParams` applies to each name
and value). -/
def urlEncode (s : String) : String :=
  String.join ((s.data.flatMap utf8Bytes).map encodeByte)

/-- `URLSearchParams.toString()`: `name=value` pairs joined by `&`. -/
def serializeParams (ps : List (String × String)) : String :=
  String.intercalate "&"
    (ps.map (fun p => urlEncode p.1 ++ "=" ++ urlEncode p.2))

/-- The dashboard navigation URL `handleConnect` builds:
`/dashboard?` followed by the serialized query parameters. -/
def handleConnectUrl (tenantId subId : String) (mode : LoginMode)
    (clientId clientSecret : String) : String :=
  "/dashboard?" ++
    serializeParams (dashboardParams tenantId subId mode clientId clientSecret)

/-- C8: in `"auto"` mode the dashboard URL's `clientId` and `clientSecret`
query parameters are the empty string whatever was typed into the credential
fields, and two `handleConnect` runs differing only in those two fields build
identical URLs; the typed secret is forwarded only in `"explicit"` mode. -/
theorem c8_auto_mode_credentials (t s c₁ k₁ c₂ k₂ : String) :
    (dashboardParams t s LoginMode.auto c₁ k₁).lookup "clientId" =
      some "" ∧
    (dashboardParams t s LoginMode.auto c₁ k₁).lookup "clientSecret" =
      some "" ∧
    handleConnectUrl t s LoginMode.auto c₁ k₁ =
      handleConnectUrl t s LoginMode.auto c₂ k₂ ∧
    (dashboardParams t s LoginMode.explicit c₁ k₁).lookup "clientSecret" =
      some k₁ := by
  exact ⟨rfl, rfl, rfl, rfl⟩

end MigrationTool
